import Mathlib

/-!
Verification development for the book-source extraction engine
(`booksource_parser.py`).  The Python module is shallowly embedded:

* pure string manipulation (`str.split`, `str.startswith`, slicing,
  `str.strip`, `re.sub` restricted to metacharacter-free literal
  patterns) is modelled by executable functions on `List Char` / `String`;
* the HTML document is a `Node` tree; BeautifulSoup's `select`,
  `get_text` and `find_previous_sibling` are modelled on that tree for
  the selector fragment the rules use (tag, `#id`, `.class`, descendant
  combinator);
* network effects (`httpx`) are oracles: `get_html` is driven by an
  attempt-outcome oracle, the parsers by a `fetch : String → String`
  page oracle and a `parse : String → Node` HTML-parsing oracle.

Fields of the Python rule dictionaries obtained with `.get` are
`Option String`; Python truthiness of `None`/`""` is `optTruthy`.
-/

namespace Legado

/-- `startsWithChars p s` is true iff the char list `p` is an initial
segment of `s` (models Python `s.startswith(p)` on explicit lists). -/
def startsWithChars : List Char → List Char → Bool
  | [], _ => true
  | _ :: _, [] => false
  | p :: ps, c :: cs => if p = c then startsWithChars ps cs else false

/-- `occursChars p s`: the char list `p` occurs as a contiguous substring
of `s` (models Python `p in s`). -/
def occursChars (p : List Char) : List Char → Bool
  | [] => startsWithChars p []
  | c :: cs => startsWithChars p (c :: cs) || occursChars p cs

/-- Number of occurrences of the character `x` in a char list. -/
def countChar (x : Char) : List Char → Nat
  | [] => 0
  | c :: cs => (if c = x then 1 else 0) + countChar x cs

/-- Split on the first occurrence of the separator `c0 :: sep`
(nonempty by construction), returning the parts before and after it;
`none` when the separator does not occur.  Models Python
`s.split(sep, 1)` paired with the `sep in s` test. -/
def splitFirstGo (c0 : Char) (sep : List Char) : List Char → Option (List Char × List Char)
  | [] => none
  | c :: cs =>
    if startsWithChars (c0 :: sep) (c :: cs) then some ([], List.drop sep.length cs)
    else (splitFirstGo c0 sep cs).map (fun ab => (c :: ab.1, ab.2))

/-- Split a char list on every (non-overlapping, leftmost) occurrence of
the separator `c0 :: sep`; `acc` is the current piece reversed.  Models
Python `s.split(sep)` for a nonempty separator.  The `fuel` argument
only makes the recursion structural: each step consumes at least one
character, so with `fuel = s.length` the fuel never runs out and the
fuel-exhausted equation is unreachable. -/
def splitGo (c0 : Char) (sep : List Char) : Nat → List Char → List Char → List (List Char)
  | 0, acc, s => [acc.reverse ++ s]
  | _ + 1, acc, [] => [acc.reverse]
  | fuel + 1, acc, c :: cs =>
    if startsWithChars (c0 :: sep) (c :: cs) then
      acc.reverse :: splitGo c0 sep fuel [] (List.drop sep.length cs)
    else
      splitGo c0 sep fuel (c :: acc) cs

/-- Remove all leftmost non-overlapping occurrences of the literal
pattern `c0 :: pat` from `s` in one left-to-right pass.  Models Python
`re.sub(pat, "", s)` for a metacharacter-free pattern (equivalently
`s.replace(pat, "")`).  `fuel` as in `splitGo`. -/
def stripAllGo (c0 : Char) (pat : List Char) : Nat → List Char → List Char
  | 0, s => s
  | _ + 1, [] => []
  | fuel + 1, c :: cs =>
    if startsWithChars (c0 :: pat) (c :: cs) then
      stripAllGo c0 pat fuel (List.drop pat.length cs)
    else
      c :: stripAllGo c0 pat fuel cs

/-- String wrapper for `occursChars`: Python `sub in s`. -/
def occursStr (sub s : String) : Bool := occursChars sub.data s.data

/-- String wrapper for `splitFirstGo`: Python `s.split(sep, 1)` when
`sep in s`, else `none`.  `sep` must be nonempty (Python raises on an
empty separator; the engine only uses `"##"`, `"@"`, `":contains("`, `")"`). -/
def splitFirstStr (sep s : String) : Option (String × String) :=
  match sep.data with
  | [] => none
  | c0 :: rest =>
    (splitFirstGo c0 rest s.data).map (fun ab => (String.mk ab.1, String.mk ab.2))

/-- String wrapper for `splitGo`: Python `s.split(sep)` for nonempty `sep`. -/
def splitAllStr (sep s : String) : List String :=
  match sep.data with
  | [] => [s]
  | c0 :: rest => (splitGo c0 rest s.data.length [] s.data).map String.mk

/-- String wrapper for `stripAllGo`: Python `re.sub(pat, "", s)` for a
metacharacter-free literal pattern `pat` (empty pattern: `s` unchanged). -/
def stripAll (pat s : String) : String :=
  match pat.data with
  | [] => s
  | c0 :: rest => String.mk (stripAllGo c0 rest s.data.length s.data)

/-- Python `s.startswith(p)`. -/
def strStarts (s p : String) : Bool := startsWithChars p.data s.data

/-- Python `s.strip()`: drop leading and trailing whitespace. -/
def pyStrip (s : String) : String :=
  String.mk (((s.data.dropWhile Char.isWhitespace).reverse.dropWhile Char.isWhitespace).reverse)

/-- Python slice `s[n:]`: drop the first `n` characters. -/
def dropChars (s : String) (n : Nat) : String := String.mk (s.data.drop n)

/-- Python `s.rstrip("/")`: drop all trailing `'/'` characters. -/
def rstripSlashes (s : String) : String :=
  String.mk (s.data.reverse.dropWhile (fun c => c = '/')).reverse

/-- Python `s.lstrip("/")`: drop all leading `'/'` characters. -/
def lstripSlashes (s : String) : String :=
  String.mk (s.data.dropWhile (fun c => c = '/'))

/-- `BookSourceParser._resolve_url`: resolve a possibly relative URL
against the configured site base.

```python
if relative_url and not relative_url.startswith("http"):
    return self.site_url.rstrip("/") + "/" + relative_url.lstrip("/")
return relative_url
``` -/
def resolveUrl (siteUrl rel : String) : String :=
  if rel ≠ "" ∧ strStarts rel "http" = false then
    rstripSlashes siteUrl ++ "/" ++ lstripSlashes rel
  else rel

/-! ## HTML document model (BeautifulSoup fragment) -/

/-- A parsed HTML tree: element nodes with a tag, attributes and
children, and text nodes.  Models the BeautifulSoup node tree. -/
inductive Node where
  | text (s : String)
  | elem (tag : String) (attrs : List (String × String)) (children : List Node)
deriving Repr

/-- Attribute lookup on an element; `none` on a text node or a missing
attribute (BeautifulSoup `tag.get(name)` yielding `None`). -/
def attrOf (n : Node) (key : String) : Option String :=
  match n with
  | .text _ => none
  | .elem _ attrs _ => (attrs.find? (fun kv => kv.1 = key)).map (fun kv => kv.2)

/-- The element's class list: the `class` attribute split on spaces. -/
def classList (n : Node) : List String :=
  splitAllStr " " ((attrOf n "class").getD "")

/-- Whether the element carries CSS class `c`. -/
def hasClass (n : Node) (c : String) : Bool :=
  (classList n).contains c

mutual
/-- BeautifulSoup `node.get_text(strip=True)`: concatenation of all
descendant text fragments, each whitespace-trimmed. -/
def getTextStrip : Node → String
  | .text s => pyStrip s
  | .elem _ _ cs => getTextStripList cs

def getTextStripList : List Node → String
  | [] => ""
  | c :: cs => getTextStrip c ++ getTextStripList cs
end

mutual
/-- BeautifulSoup `node.get_text()`: concatenation of all descendant
text fragments, untrimmed. -/
def getTextRaw : Node → String
  | .text s => s
  | .elem _ _ cs => getTextRawList cs

def getTextRawList : List Node → String
  | [] => ""
  | c :: cs => getTextRaw c ++ getTextRawList cs
end

/-- Serialize an attribute list back to HTML source text. -/
def attrsText : List (String × String) → String
  | [] => ""
  | kv :: rest => " " ++ kv.1 ++ "=\"" ++ kv.2 ++ "\"" ++ attrsText rest

mutual
/-- Python `str(node)`: serialized outer HTML of the node. -/
def outerHtml : Node → String
  | .text s => s
  | .elem tag attrs cs => "<" ++ tag ++ attrsText attrs ++ ">" ++ outerHtmlList cs ++ "</" ++ tag ++ ">"

def outerHtmlList : List Node → String
  | [] => ""
  | c :: cs => outerHtml c ++ outerHtmlList cs
end

/-! ## CSS selector engine (soupsieve fragment used by the rules) -/

/-- A compound simple selector: optional tag name, optional `#id`,
required class names, e.g. `ul.chapter`, `.intro`, `#top`, `a`. -/
structure Simple where
  tag : Option String
  id : Option String
  classes : List String
deriving Repr

/-- Cut a compound-selector token into `(kind, name)` segments, where
the kind is `'e'` for the leading tag segment, `'.'` for a class
segment and `'#'` for an id segment. -/
def segsGo (kind : Char) (acc : List Char) : List Char → List (Char × List Char)
  | [] => [(kind, acc.reverse)]
  | c :: cs =>
    if c = '.' ∨ c = '#' then (kind, acc.reverse) :: segsGo c [] cs
    else segsGo kind (c :: acc) cs

/-- Parse one compound-selector token (no combinators) into `Simple`. -/
def parseSimple (tok : String) : Simple :=
  let segs := segsGo 'e' [] tok.data
  { tag :=
      match segs.head? with
      | some kn => if kn.1 = 'e' ∧ kn.2 ≠ [] then some (String.mk kn.2) else none
      | none => none
    id := (segs.filterMap (fun kn => if kn.1 = '#' then some (String.mk kn.2) else none)).head?
    classes := segs.filterMap (fun kn => if kn.1 = '.' then some (String.mk kn.2) else none) }

/-- Whether an element node matches one compound simple selector. -/
def matchesSimple (sp : Simple) (n : Node) : Bool :=
  match n with
  | .text _ => false
  | .elem tag _ _ =>
    (match sp.tag with
     | none => true
     | some t => t = tag) &&
    (match sp.id with
     | none => true
     | some i => attrOf n "id" = some i) &&
    sp.classes.all (fun c => hasClass n c)

/-- A selected node together with its preceding siblings, nearest
first — the context BeautifulSoup offers via `find_previous_sibling`. -/
structure Located where
  node : Node
  prevSibs : List Node
deriving Repr

/-- Whether one of the active descendant-chain states is completed by
the current node (the state holds exactly one pending selector and the
node matches it). -/
def stateDone (states : List (List Simple)) (n : Node) : Bool :=
  states.any fun st =>
    match st with
    | [s] => matchesSimple s n
    | _ => false

/-- The states active for this node's descendants: every present state
persists (descendant combinator), and a state whose head the node
matches additionally spawns its tail. -/
def stateStep (states : List (List Simple)) (n : Node) : List (List Simple) :=
  states ++ states.filterMap fun st =>
    match st with
    | [] => none
    | [_] => none
    | s :: rest => if matchesSimple s n then some rest else none

mutual
/-- Collect, in document order, the descendants matched by the active
selector-chain states, each with its preceding-sibling context. -/
def collectNode (states : List (List Simple)) (prev : List Node) (n : Node) : List Located :=
  match n with
  | .text _ => []
  | .elem _ _ cs =>
    (if stateDone states n then [⟨n, prev⟩] else []) ++
      collectChildren (stateStep states n) [] cs

def collectChildren (states : List (List Simple)) (prev : List Node) : List Node → List Located
  | [] => []
  | c :: cs => collectNode states prev c ++ collectChildren states (c :: prev) cs
end

/-- `node.select(sel)` with sibling context: split the selector on
spaces into a descendant chain of compound selectors and search the
node's descendants (the node itself is not a candidate, matching
BeautifulSoup `Tag.select`). -/
def selectLocated (root : Node) (sel : String) : List Located :=
  let sims := ((splitAllStr " " sel).filter (fun t => t ≠ "")).map parseSimple
  match root with
  | .text _ => []
  | .elem _ _ cs => collectChildren [sims] [] cs

/-- `node.select(sel)`: matched descendant elements in document order. -/
def selectCss (root : Node) (sel : String) : List Node :=
  (selectLocated root sel).map (fun loc => loc.node)

/-! ## `BookSourceParser._select` -/

/-- Python `s.strip("'\"")`: drop leading and trailing quote characters. -/
def stripQuotes (s : String) : String :=
  let isQ := fun c => c = '\'' ∨ c = '"'
  String.mk (((s.data.dropWhile isQ).reverse.dropWhile isQ).reverse)

/-- The `re.search(r':contains\((.*?)\)', sel)` step of `_select`: if
the selector embeds a `:contains(LITERAL)` pseudo-filter, return the
selector with every occurrence of the exact matched clause removed
(Python `sel.replace(group0, "")`) and the literal with surrounding
quotes stripped; otherwise return the selector unchanged. -/
def extractContains (sel : String) : String × Option String :=
  match splitFirstStr ":contains(" sel with
  | none => (sel, none)
  | some pr =>
    match splitFirstStr ")" pr.2 with
    | none => (sel, none)
    | some ib =>
      let full := ":contains(" ++ ib.1 ++ ")"
      (stripAll full sel, some (stripQuotes ib.1))

/-- The tail of `_select` after the selector and extraction type have
been determined: shorthand rewriting (`id.X` → `#X`, `class.X` → `.X`),
`:contains` filtering, CSS selection, then extraction from the first
matched node (`text` → trimmed text, `html` → outer HTML, otherwise the
attribute named by the type, defaulting to `""`). -/
def runSel (soup : Node) (sel0 typ : String) : String :=
  let sel1 :=
    if strStarts sel0 "id." then "#" ++ dropChars sel0 3
    else if strStarts sel0 "class." then "." ++ dropChars sel0 6
    else sel0
  let sc := extractContains sel1
  let nodes := selectCss soup sc.1
  let nodes :=
    match sc.2 with
    | some t => if t = "" then nodes else nodes.filter (fun n => occursStr t (getTextRaw n))
    | none => nodes
  match nodes with
  | [] => ""
  | node :: _ =>
    if typ = "text" then getTextStrip node
    else if typ = "html" then outerHtml node
    else (attrOf node typ).getD ""

/-- `typ = parts[1] if len(parts) == 2 else "text"`. -/
def partsType (parts : List String) : String :=
  match parts with
  | [_, t] => t
  | _ => "text"

/-- The `@`-splitting step of `_select`:

```python
parts = selector.split("@")
sel = parts[0]
typ = parts[1] if len(parts) == 2 else "text"
``` -/
def selectCore (soup : Node) (selector : String) : String :=
  let parts := splitAllStr "@" selector
  runSel soup (parts.headD "") (partsType parts)

/-- The recursive call `self._select(soup, sel)` made on the base part
of a `##` expression: that part never contains `##` again, so only the
emptiness check and the `@` logic apply. -/
def selectBase (soup : Node) (selector : String) : String :=
  if selector = "" then "" else selectCore soup selector

/-- `BookSourceParser._select`: empty selector yields `""`; a selector
containing `##` is split on the first occurrence into base and regex,
the base is resolved recursively and all regex matches are stripped
from the result; otherwise the `@` logic runs. -/
def selectExpr (soup : Node) (selector : String) : String :=
  if selector = "" then ""
  else
    match splitFirstStr "##" selector with
    | some br => stripAll br.2 (selectBase soup br.1)
    | none => selectCore soup selector

/-! ## `BookSourceParser.get_html` -/

/-- The outcome of one HTTP attempt inside `get_html`: a response text
(after `raise_for_status` passed), or one of the caught exception
kinds (`httpx.TimeoutException`, `httpx.RequestError`,
`httpx.HTTPStatusError`, any other `Exception`). -/
inductive FetchOutcome where
  | success (text : String)
  | timeout
  | requestError
  | statusError
  | otherError
deriving Repr

/-- Whether the attempt produced a response text. -/
def isSuccess : FetchOutcome → Bool
  | .success _ => true
  | _ => false

/-- The retry loop of `get_html`, driven by an oracle giving each
attempt's outcome: starting at attempt `i` with `n` attempts remaining,
return the first successful response text, or `""` when all remaining
attempts fail.  Every exception kind is caught inside the loop, so the
function is total — nothing propagates to the caller. -/
def getHtmlGo (attempt : Nat → FetchOutcome) : Nat → Nat → String
  | _, 0 => ""
  | i, n + 1 =>
    match attempt i with
    | .success t => t
    | _ => getHtmlGo attempt (i + 1) n

/-- `BookSourceParser.get_html`: `for attempt in range(3)` around one
HTTP request, returning the first response text or `""` after the
third failure. -/
def getHtml (attempt : Nat → FetchOutcome) : String :=
  getHtmlGo attempt 0 3

/-! ## `BookSourceParser.parse_content` -/

/-- The `ruleContent` rule group; each field is `rule.get(key)`, so an
absent key is `none`. -/
structure ContentRule where
  content : Option String
  nextContentUrl : Option String
  replaceRegex : Option String
  title : Option String

/-- Python truthiness of an optional string: `None` and `""` are falsy. -/
def optTruthy : Option String → Bool
  | none => false
  | some s => !(s == "")

/-- Result of one run of the content-assembly loop, instrumented with
the number of fetches performed and the documents visited. -/
structure ContentRun where
  title : String
  content : String
  fetches : Nat
  pages : List Node

/-- The `while url and page_count < max_pages` loop of `parse_content`,
with `fuel = max_pages - page_count`.  One iteration fetches the page
(breaking, after that one fetch, if it is empty), appends the non-empty
content fragment, captures the title only while none is held, selects
the next-page URL if a `nextContentUrl` selector is configured, and
resolves it for the next iteration. -/
def parseContentLoop (site : String) (fetch : String → String) (parse : String → Node)
    (r : ContentRule) : Nat → Option String → String → String → ContentRun
  | 0, _, title, content => ⟨title, content, 0, []⟩
  | fuel + 1, url, title, content =>
    if optTruthy url then
      let html := fetch (url.getD "")
      if html = "" then ⟨title, content, 1, []⟩
      else
        let soup := parse html
        let content1 :=
          if optTruthy r.content then
            let part := selectExpr soup (r.content.getD "")
            if part ≠ "" then content ++ part else content
          else content
        let title1 :=
          if optTruthy r.title ∧ title = "" then selectExpr soup (r.title.getD "")
          else title
        let nextUrl : Option String :=
          if optTruthy r.nextContentUrl then some (selectExpr soup (r.nextContentUrl.getD ""))
          else none
        let url1 := nextUrl.map (resolveUrl site)
        let rest := parseContentLoop site fetch parse r fuel url1 title1 content1
        ⟨rest.title, rest.content, rest.fetches + 1, soup :: rest.pages⟩
    else ⟨title, content, 0, []⟩

/-- The loop of `parse_content` started at the chapter URL with
`max_pages = 3`, `page_count = 0`, empty title and content. -/
def parseContentRun (site : String) (fetch : String → String) (parse : String → Node)
    (r : ContentRule) (chapterUrl : String) : ContentRun :=
  parseContentLoop site fetch parse r 3 (some chapterUrl) "" ""

/-- `BookSourceParser.parse_content`: run the pagination loop, then
strip all `replaceRegex` matches from the accumulated content (when
configured) and trim it; returns `(title, content)`. -/
def parseContent (site : String) (fetch : String → String) (parse : String → Node)
    (r : ContentRule) (chapterUrl : String) : String × String :=
  let run := parseContentRun site fetch parse r chapterUrl
  let content :=
    if optTruthy r.replaceRegex then stripAll (r.replaceRegex.getD "") run.content
    else run.content
  (run.title, pyStrip content)

/-- The title a single visited page contributes: the `title` selector's
extraction when one is configured, else `""`. -/
def pageTitle (r : ContentRule) (soup : Node) : String :=
  if optTruthy r.title then selectExpr soup (r.title.getD "") else ""

/-- Specification-side description of the assembled title: the first
non-empty per-page title over the visited pages, `""` when none. -/
def specFirstPageTitle (r : ContentRule) (pages : List Node) : String :=
  ((pages.map (pageTitle r)).find? (fun t => t ≠ "")).getD ""

/-! ## `BookSourceParser.parse_toc` -/

/-- The `ruleToc` rule group (only the fields `parse_toc` reads). -/
structure TocRule where
  chapterName : Option String
  chapterUrl : Option String

/-- The filter of `find_previous_sibling("div", class_="intro")`: an
element with tag `div` whose class list contains `intro`. -/
def isDivIntro (n : Node) : Bool :=
  match n with
  | .text _ => false
  | .elem tag _ _ => tag = "div" && hasClass n "intro"

/-- The marker test of `parse_toc` on one `ul.chapter` container:
`find_previous_sibling("div", class_="intro")` (the nearest preceding
sibling matching the filter) exists and its stripped text is `"正文"`. -/
def tocMarker (loc : Located) : Bool :=
  match loc.prevSibs.find? isDivIntro with
  | some sib => getTextStrip sib == "正文"
  | none => false

/-- The per-container extraction of `parse_toc`: each `li` item yields
`(name, resolved url)` via the `chapterName` / `chapterUrl` selectors
(defaults `a@text` / `a@href`). -/
def tocItems (site : String) (rt : TocRule) (container : Node) : List (String × String) :=
  let nameSel := rt.chapterName.getD "a@text"
  let urlSel := rt.chapterUrl.getD "a@href"
  (selectCss container "li").map fun item =>
    (selectExpr item nameSel, resolveUrl site (selectExpr item urlSel))

/-- `BookSourceParser.parse_toc`: fetch the toc page (empty page →
`[]`), select every `ul.chapter` container, pick the first whose
marker test passes, falling back to the first container found, and
extract its chapter items. -/
def parseToc (site : String) (fetch : String → String) (parse : String → Node)
    (rt : TocRule) (tocUrl : String) : List (String × String) :=
  let html := fetch tocUrl
  if html = "" then []
  else
    let soup := parse html
    let allLists := selectLocated soup "ul.chapter"
    match allLists.find? tocMarker with
    | some loc => tocItems site rt loc.node
    | none =>
      match allLists with
      | first :: _ => tocItems site rt first.node
      | [] => []

/-- Spec-side container choice, following the amended wording of the
toc-selection claim: among the `ul.chapter` containers, the first one
whose nearest preceding sibling `div` of class `intro` has stripped
text `"正文"`; when no container qualifies, the first container found. -/
def specTocChoice (soup : Node) : Option Located :=
  let lists := selectLocated soup "ul.chapter"
  ((lists.filter tocMarker).head?).or lists.head?

/-- Spec-side toc result built from `specTocChoice`. -/
def specTocResult (site : String) (rt : TocRule) (soup : Node) : List (String × String) :=
  match specTocChoice soup with
  | some loc => tocItems site rt loc.node
  | none => []

/-- The toc-selection claim taken literally: the marker `div.intro`
with stripped text `"正文"` must be the *immediately* preceding sibling
of the container. -/
def tocMarkerImmediate (loc : Located) : Bool :=
  match loc.prevSibs with
  | sib :: _ => isDivIntro sib && (getTextStrip sib == "正文")
  | [] => false

/-- The toc result the literal claim predicts: container selection by
`tocMarkerImmediate`, with the same first-container fallback. -/
def specTocImmediateResult (site : String) (rt : TocRule) (soup : Node) : List (String × String) :=
  let lists := selectLocated soup "ul.chapter"
  match (lists.filter tocMarkerImmediate).head?.or lists.head? with
  | some loc => tocItems site rt loc.node
  | none => []

/-! ## `BookSourceParser.parse_book_info` -/

/-- `BookSourceParser.parse_book_info`: empty mapping when the
`ruleBookInfo` group is absent (`if not rule`), or when the page fetch
yields an empty body; otherwise, for every `(field, selector)` of the
group in order, store the trimmed extraction under the field when the
extraction is non-empty. -/
def parseBookInfo (fetch : String → String) (parse : String → Node)
    (ruleBookInfo : List (String × String)) (infoUrl : String) : List (String × String) :=
  if ruleBookInfo = [] then []
  else
    let html := fetch infoUrl
    if html = "" then []
    else
      let soup := parse html
      ruleBookInfo.filterMap fun kv =>
        let value := selectExpr soup kv.2
        if value ≠ "" then some (kv.1, pyStrip value) else none

/-! ## Theorems -/

/-- C4: the URL resolver maps `""` to `""`, keeps any input starting
with `"http"` unchanged, joins every other non-empty input to the site
base with trailing slashes stripped from the base and leading slashes
stripped from the input, and is consequently idempotent on
already-absolute URLs. -/
theorem resolveUrl_spec (site r s u : String)
    (hr1 : r ≠ "") (hr2 : strStarts r "http" = false)
    (hs : strStarts s "http" = true) (hu : strStarts u "http" = true) :
    resolveUrl site "" = "" ∧
    resolveUrl site s = s ∧
    resolveUrl site r = rstripSlashes site ++ "/" ++ lstripSlashes r ∧
    resolveUrl site (resolveUrl site u) = resolveUrl site u := by
  refine ⟨by simp [resolveUrl], by simp [resolveUrl, hs], by simp [resolveUrl, hr1, hr2], ?_⟩
  have h1 : resolveUrl site u = u := by simp [resolveUrl, hu]
  rw [h1, h1]

/-- C4 witness at `site = "http://a.com/"`, `r = "/p"`,
`s = u = "http://x"`. -/
theorem resolveUrl_spec_witness :
    (("/p" : String) ≠ "" ∧ strStarts "/p" "http" = false ∧
      strStarts "http://x" "http" = true) ∧
    (resolveUrl "http://a.com/" "" = "" ∧
     resolveUrl "http://a.com/" "http://x" = "http://x" ∧
     resolveUrl "http://a.com/" "/p" =
       rstripSlashes "http://a.com/" ++ "/" ++ lstripSlashes "/p" ∧
     resolveUrl "http://a.com/" (resolveUrl "http://a.com/" "http://x") =
       resolveUrl "http://a.com/" "http://x") :=
  ⟨⟨by decide, by decide, by decide⟩,
    resolveUrl_spec "http://a.com/" "/p" "http://x" "http://x"
      (by decide) (by decide) (by decide) (by decide)⟩

theorem getHtmlGo_allFail (attempt : Nat → FetchOutcome) :
    ∀ n i, (∀ j, j < n → isSuccess (attempt (i + j)) = false) →
      getHtmlGo attempt i n = "" := by
  intro n
  induction n with
  | zero => intro i _; rfl
  | succ m ih =>
    intro i hj
    have hi : isSuccess (attempt i) = false := by simpa using hj 0 (by omega)
    have hrest : ∀ j, j < m → isSuccess (attempt (i + 1 + j)) = false := by
      intro j hjm
      have := hj (j + 1) (by omega)
      rwa [show i + (j + 1) = i + 1 + j by omega] at this
    unfold getHtmlGo
    cases e : attempt i with
    | success t => rw [e] at hi; simp [isSuccess] at hi
    | timeout => exact ih (i + 1) hrest
    | requestError => exact ih (i + 1) hrest
    | statusError => exact ih (i + 1) hrest
    | otherError => exact ih (i + 1) hrest

/-- C3: `get_html` is total (every attempt outcome — timeout, network
error, non-2xx status, or any other error — is caught inside the retry
loop, so nothing is raised to the caller), and when all 3 attempts fail
it returns the empty string. -/
theorem getHtml_allFail (attempt : Nat → FetchOutcome)
    (h : ∀ i, i < 3 → isSuccess (attempt i) = false) :
    getHtml attempt = "" :=
  getHtmlGo_allFail attempt 3 0 (fun j hj => by simpa using h j hj)

/-- C3 witness: an oracle whose every attempt times out. -/
theorem getHtml_allFail_witness :
    (∀ i, i < 3 → isSuccess ((fun _ => FetchOutcome.timeout) i) = false) ∧
    getHtml (fun _ => FetchOutcome.timeout) = "" :=
  ⟨fun _ _ => rfl, getHtml_allFail (fun _ => FetchOutcome.timeout) (fun _ _ => rfl)⟩

theorem parseContentLoop_fetches_le (site : String) (fetch : String → String)
    (parse : String → Node) (r : ContentRule) :
    ∀ fuel url title content,
      (parseContentLoop site fetch parse r fuel url title content).fetches ≤ fuel := by
  intro fuel
  induction fuel with
  | zero => intro url t c; simp [parseContentLoop]
  | succ m ih =>
    intro url t c
    unfold parseContentLoop
    by_cases hu : optTruthy url = true
    · simp only [hu, if_true]
      by_cases hh : fetch (url.getD "") = ""
      · simp [hh]
      · simp only [hh, if_false]
        exact Nat.succ_le_succ (ih _ _ _)
    · simp [hu]

/-- C2: one call of the content assembler performs at most 3 page
fetches, for every fetch oracle, HTML-parse oracle, rule configuration
(cyclic `nextContentUrl` chains included) and start URL. -/
theorem parseContent_fetchCap (site : String) (fetch : String → String)
    (parse : String → Node) (r : ContentRule) (chapterUrl : String) :
    (parseContentRun site fetch parse r chapterUrl).fetches ≤ 3 :=
  parseContentLoop_fetches_le site fetch parse r 3 (some chapterUrl) "" ""

theorem parseContentLoop_title_eq (site : String) (fetch : String → String)
    (parse : String → Node) (r : ContentRule) :
    ∀ fuel url title content,
      (parseContentLoop site fetch parse r fuel url title content).title
        = if title ≠ "" then title
          else specFirstPageTitle r (parseContentLoop site fetch parse r fuel url title content).pages := by
  intro fuel
  induction fuel with
  | zero =>
    intro url t c
    by_cases ht : t = "" <;> simp [parseContentLoop, specFirstPageTitle, ht]
  | succ m ih =>
    intro url t c
    unfold parseContentLoop
    by_cases hu : optTruthy url = true
    · simp only [hu, if_true]
      by_cases hh : fetch (url.getD "") = ""
      · by_cases ht : t = "" <;> simp [hh, specFirstPageTitle, ht]
      · simp only [hh, if_false]
        by_cases ht : t = ""
        · subst ht
          have ht1 : (if optTruthy r.title ∧ ("" : String) = "" then
              selectExpr (parse (fetch (url.getD ""))) (r.title.getD "") else "")
              = pageTitle r (parse (fetch (url.getD ""))) := by
            by_cases hrt : optTruthy r.title = true <;> simp [pageTitle, hrt]
          rw [ht1]
          rw [ih]
          by_cases hp : pageTitle r (parse (fetch (url.getD ""))) = ""
          · simp [hp, specFirstPageTitle]
          · simp [hp, specFirstPageTitle]
        · have ht1 : (if optTruthy r.title ∧ t = "" then
              selectExpr (parse (fetch (url.getD ""))) (r.title.getD "") else t) = t := by
            simp [ht]
          rw [ht1, ih]
          simp [ht]
    · simp only [hu]
      by_cases ht : t = "" <;> simp [hu, parseContentLoop, specFirstPageTitle, ht]

/-- C6: the title of the assembled content equals the title extracted
from the first visited page whose title selector yields a non-empty
string (later pages never change it), and is `""` when no page yields
one. -/
theorem parseContent_titleFirst (site : String) (fetch : String → String)
    (parse : String → Node) (r : ContentRule) (chapterUrl : String) :
    (parseContent site fetch parse r chapterUrl).1
      = specFirstPageTitle r (parseContentRun site fetch parse r chapterUrl).pages := by
  have h := parseContentLoop_title_eq site fetch parse r 3 (some chapterUrl) "" ""
  simpa [parseContent, parseContentRun] using h

/-- C9: with no `nextContentUrl` selector configured, a content
assembly whose start URL is non-empty and whose first fetch returns a
non-empty page performs exactly one fetch and visits exactly one page;
the URL resolver passes the absent / empty next URL through unchanged,
so the loop condition fails on its second check. -/
theorem parseContent_noNext_singleFetch (site : String) (fetch : String → String)
    (parse : String → Node) (r : ContentRule) (chapterUrl : String)
    (hnext : r.nextContentUrl = none) (hu : chapterUrl ≠ "")
    (hf : fetch chapterUrl ≠ "") :
    (parseContentRun site fetch parse r chapterUrl).fetches = 1 ∧
    (parseContentRun site fetch parse r chapterUrl).pages = [parse (fetch chapterUrl)] ∧
    (none : Option String).map (resolveUrl site) = none ∧
    resolveUrl site "" = "" := by
  refine ⟨?_, ?_, rfl, by simp [resolveUrl]⟩ <;>
    simp [parseContentRun, parseContentLoop, optTruthy, hnext, hu, hf]

/-- C9 witness: a rule with no `nextContentUrl` against a page oracle
that always returns a non-empty body. -/
theorem parseContent_noNext_singleFetch_witness :
    ((⟨none, none, none, none⟩ : ContentRule).nextContentUrl = none ∧
      ("u" : String) ≠ "" ∧ (fun _ => "h") "u" ≠ "") ∧
    ((parseContentRun "http://s.com" (fun _ => "h") (fun _ => Node.text "t")
        ⟨none, none, none, none⟩ "u").fetches = 1 ∧
     (parseContentRun "http://s.com" (fun _ => "h") (fun _ => Node.text "t")
        ⟨none, none, none, none⟩ "u").pages = [(fun _ => Node.text "t") ((fun _ => "h") "u")] ∧
     (none : Option String).map (resolveUrl "http://s.com") = none ∧
     resolveUrl "http://s.com" "" = "") :=
  ⟨⟨rfl, by decide, by decide⟩,
    parseContent_noNext_singleFetch "http://s.com" (fun _ => "h") (fun _ => Node.text "t")
      ⟨none, none, none, none⟩ "u" rfl (by decide) (by decide)⟩

theorem mem_bookInfoFilter (soup : Node) (rule : List (String × String)) (k v : String) :
    ((k, v) ∈ rule.filterMap (fun kv =>
        let value := selectExpr soup kv.2
        if value ≠ "" then some (kv.1, pyStrip value) else none)) ↔
      ∃ s, (k, s) ∈ rule ∧ selectExpr soup s ≠ "" ∧ v = pyStrip (selectExpr soup s) := by
  simp only [List.mem_filterMap]
  constructor
  · rintro ⟨⟨k', s⟩, hmem, hsome⟩
    dsimp only at hsome
    by_cases hne : selectExpr soup s ≠ ""
    · rw [if_pos hne] at hsome
      injection Option.some.inj hsome with hk hv
      exact ⟨s, hk ▸ hmem, hne, hv.symm⟩
    · rw [if_neg hne] at hsome
      exact absurd hsome (by simp)
  · rintro ⟨s, hmem, hne, hv⟩
    exact ⟨(k, s), hmem, by simp only; rw [if_pos hne, hv]⟩

/-- C8: `parse_book_info` yields the empty mapping when the
`ruleBookInfo` group is absent, and otherwise (given a successful
fetch) contains exactly the pairs `(field, trimmed value)` for the
fields of the group whose extraction on the fetched document is
non-empty. -/
theorem parseBookInfo_spec (fetch : String → String) (parse : String → Node)
    (rule : List (String × String)) (url k v : String)
    (hf : fetch url ≠ "") :
    parseBookInfo fetch parse [] url = [] ∧
    ((k, v) ∈ parseBookInfo fetch parse rule url ↔
      ∃ s, (k, s) ∈ rule ∧ selectExpr (parse (fetch url)) s ≠ "" ∧
        v = pyStrip (selectExpr (parse (fetch url)) s)) := by
  refine ⟨rfl, ?_⟩
  by_cases hr : rule = []
  · subst hr; simp [parseBookInfo]
  · unfold parseBookInfo
    simp only [hr, if_false, hf]
    exact mem_bookInfoFilter (parse (fetch url)) rule k v

/-- The concrete book-info page used by the C8 witness. -/
def infoDocW : Node := Node.elem "html" [] [Node.elem "b" [] [Node.text " N "]]

/-- C8 witness: a two-field rule group where only the first field's
selector matches; its value is stored trimmed. -/
theorem parseBookInfo_spec_witness :
    ((fun _ : String => "h") "u" ≠ "" ∧
      parseBookInfo (fun _ => "h") (fun _ => infoDocW) [] "u" = []) ∧
    ((("name", "N") ∈ parseBookInfo (fun _ => "h") (fun _ => infoDocW)
        [("name", "b@text"), ("author", "q@text")] "u") ↔
      ∃ s, ("name", s) ∈ [("name", "b@text"), ("author", "q@text")] ∧
        selectExpr infoDocW s ≠ "" ∧ ("N" : String) = pyStrip (selectExpr infoDocW s)) := by
  have h := parseBookInfo_spec (fun _ => "h") (fun _ => infoDocW)
    [("name", "b@text"), ("author", "q@text")] "u" "name" "N" (by decide)
  exact ⟨⟨by decide, h.1⟩, h.2⟩

/-! ## String toolkit lemmas -/

theorem strMkData (s : String) : String.mk s.data = s := rfl

theorem data_mk (l : List Char) : (String.mk l).data = l := rfl

theorem partsType_of_three_le (parts : List String) (h : 3 ≤ parts.length) :
    partsType parts = "text" := by
  rcases parts with _ | ⟨a, _ | ⟨b, _ | ⟨c, ps⟩⟩⟩
  · simp at h
  · simp at h
  · simp at h
  · rfl

theorem selectExpr_of_none (soup : Node) (sel : String) (h0 : sel ≠ "")
    (h : splitFirstStr "##" sel = none) : selectExpr soup sel = selectCore soup sel := by
  unfold selectExpr
  rw [if_neg h0, h]

theorem selectExpr_of_some (soup : Node) (sel b r : String) (h0 : sel ≠ "")
    (h : splitFirstStr "##" sel = some (b, r)) :
    selectExpr soup sel = stripAll r (selectBase soup b) := by
  unfold selectExpr
  rw [if_neg h0, h]

theorem selectCore_eq (soup : Node) (selector : String) :
    selectCore soup selector
      = runSel soup ((splitAllStr "@" selector).headD "")
          (partsType (splitAllStr "@" selector)) := rfl

theorem strDataAppend (a b : String) : (a ++ b).data = a.data ++ b.data := by
  cases a; cases b; rfl

theorem splitFirstStr_hash (s : String) :
    splitFirstStr "##" s
      = (splitFirstGo '#' ['#'] s.data).map (fun ab => (String.mk ab.1, String.mk ab.2)) := rfl

theorem splitAllStr_at (s : String) :
    splitAllStr "@" s = (splitGo '@' [] s.data.length [] s.data).map String.mk := rfl

theorem startsWithChars_append (p a b : List Char) (h : startsWithChars p a = true) :
    startsWithChars p (a ++ b) = true := by
  induction p generalizing a with
  | nil => rfl
  | cons x ps ih =>
    cases a with
    | nil => simp [startsWithChars] at h
    | cons c cs =>
      simp only [startsWithChars, List.cons_append] at h ⊢
      by_cases hx : x = c
      · rw [if_pos hx] at h ⊢
        exact ih cs h
      · rw [if_neg hx] at h
        exact absurd h (by simp)

theorem occursChars_append_left (p a b : List Char) (h : occursChars p a = true) :
    occursChars p (a ++ b) = true := by
  induction a with
  | nil =>
    cases p with
    | nil => cases b <;> simp [occursChars, startsWithChars]
    | cons x ps => simp [occursChars, startsWithChars] at h
  | cons c cs ih =>
    simp only [occursChars, List.cons_append, Bool.or_eq_true] at h ⊢
    rcases h with h1 | h2
    · exact Or.inl (startsWithChars_append p (c :: cs) b h1)
    · exact Or.inr (ih h2)

theorem occursChars_of_prefix_false (p a b : List Char)
    (h : occursChars p (a ++ b) = false) : occursChars p a = false := by
  cases ho : occursChars p a with
  | false => rfl
  | true => rw [occursChars_append_left p a b ho] at h; exact absurd h (by simp)

theorem occursChars_single_false (x : Char) (s : List Char)
    (h : occursChars [x] s = false) : ∀ c ∈ s, c ≠ x := by
  induction s with
  | nil => intro c hc; cases hc
  | cons c cs ih =>
    simp only [occursChars, Bool.or_eq_false_iff] at h
    obtain ⟨h1, h2⟩ := h
    intro d hd
    rcases List.mem_cons.mp hd with rfl | hd
    · intro hdx
      rw [hdx] at h1
      simp [startsWithChars] at h1
    · exact ih h2 d hd

theorem occursChars_two_append (x y : Char) (a b : List Char)
    (ha : occursChars [x, y] a = false) (hb : occursChars [x, y] b = false)
    (hhead : ∀ c, b.head? = some c → c ≠ y) :
    occursChars [x, y] (a ++ b) = false := by
  induction a with
  | nil => simpa using hb
  | cons c cs ih =>
    simp only [occursChars, List.cons_append, Bool.or_eq_false_iff] at ha ⊢
    obtain ⟨h1, h2⟩ := ha
    refine ⟨?_, ih h2⟩
    simp only [startsWithChars] at h1 ⊢
    by_cases hx : x = c
    · rw [if_pos hx] at h1 ⊢
      cases cs with
      | nil =>
        cases b with
        | nil => rfl
        | cons d ds =>
          have hd : d ≠ y := hhead d rfl
          simp only [List.nil_append, startsWithChars]
          rw [if_neg (fun hyd => hd hyd.symm)]
      | cons d ds =>
        simp only [startsWithChars, List.cons_append] at h1 ⊢
        by_cases hy : y = d
        · rw [if_pos hy] at h1; exact absurd h1 (by simp)
        · rw [if_neg hy]
    · rw [if_neg hx]

theorem splitFirstGo_none (c0 : Char) (sep s : List Char)
    (h : occursChars (c0 :: sep) s = false) : splitFirstGo c0 sep s = none := by
  induction s with
  | nil => rfl
  | cons c cs ih =>
    simp only [occursChars, Bool.or_eq_false_iff] at h
    obtain ⟨h1, h2⟩ := h
    simp [splitFirstGo, h1, ih h2]

theorem splitFirstGo_hashes (a r : List Char)
    (hno : occursChars ['#', '#'] a = false) (hend : a.getLast? ≠ some '#') :
    splitFirstGo '#' ['#'] (a ++ '#' :: '#' :: r) = some (a, r) := by
  induction a with
  | nil => simp [splitFirstGo, startsWithChars]
  | cons c cs ih =>
    simp only [occursChars, Bool.or_eq_false_iff] at hno
    obtain ⟨h1, h2⟩ := hno
    have hend' : cs.getLast? ≠ some '#' := by
      cases cs with
      | nil => simp
      | cons d ds => rw [List.getLast?_cons_cons] at hend; exact hend
    have hsw : startsWithChars ['#', '#'] (c :: (cs ++ '#' :: '#' :: r)) = false := by
      by_cases hc : c = '#'
      · subst hc
        cases cs with
        | nil => simp at hend
        | cons d ds =>
          simp only [startsWithChars, List.cons_append] at h1 ⊢
          exact h1
      · simp only [startsWithChars, List.cons_append]
        rw [if_neg (fun he => hc he.symm)]
    rw [List.cons_append, splitFirstGo.eq_2]
    rw [if_neg (by simp [hsw])]
    rw [ih h2 hend']
    rfl

theorem splitGo_nosep (c0 : Char) (fuel : Nat) :
    ∀ (acc s : List Char), (∀ c ∈ s, c ≠ c0) →
      splitGo c0 [] fuel acc s = [acc.reverse ++ s] := by
  induction fuel with
  | zero => intro acc s _; rfl
  | succ m ih =>
    intro acc s h
    cases s with
    | nil => simp [splitGo]
    | cons c cs =>
      have hc : c ≠ c0 := h c (by simp)
      have hsw : startsWithChars (c0 :: []) (c :: cs) = false := by
        simp only [startsWithChars]
        rw [if_neg (fun he => hc he.symm)]
      rw [splitGo.eq_3]
      rw [if_neg (by simp [hsw])]
      rw [ih (c :: acc) cs (fun d hd => h d (List.mem_cons_of_mem c hd))]
      simp

theorem splitGo_append_sep (c0 : Char) (fuel : Nat) :
    ∀ (acc a t : List Char),
      a.length + 1 ≤ fuel →
      (∀ c ∈ a, c ≠ c0) → (∀ c ∈ t, c ≠ c0) →
      splitGo c0 [] fuel acc (a ++ c0 :: t) = [acc.reverse ++ a, t] := by
  induction fuel with
  | zero =>
    intro acc a t hlen _ _
    exact absurd hlen (by omega)
  | succ m ih =>
    intro acc a t hlen ha ht
    cases a with
    | nil =>
      rw [List.nil_append, splitGo.eq_3]
      rw [if_pos (by simp [startsWithChars])]
      simp only [List.length_nil, List.drop_zero]
      rw [splitGo_nosep c0 m [] t ht]
      simp
    | cons c cs =>
      have hc : c ≠ c0 := ha c (by simp)
      have hsw : startsWithChars (c0 :: []) (c :: (cs ++ c0 :: t)) = false := by
        simp only [startsWithChars]
        rw [if_neg (fun he => hc he.symm)]
      rw [List.cons_append, splitGo.eq_3]
      rw [if_neg (by simp [hsw])]
      rw [ih (c :: acc) cs t (by simp at hlen ⊢; omega) (fun d hd => ha d (List.mem_cons_of_mem c hd)) ht]
      simp

theorem splitGo_length (c0 : Char) (fuel : Nat) :
    ∀ (acc s : List Char), s.length ≤ fuel →
      (splitGo c0 [] fuel acc s).length = countChar c0 s + 1 := by
  induction fuel with
  | zero =>
    intro acc s h
    have hs : s = [] := List.eq_nil_of_length_eq_zero (by omega)
    subst hs
    rfl
  | succ m ih =>
    intro acc s h
    cases s with
    | nil => simp [splitGo, countChar]
    | cons c cs =>
      by_cases hc : c = c0
      · subst hc
        rw [splitGo.eq_3]
        rw [if_pos (by simp [startsWithChars])]
        simp only [List.length_nil, List.drop_zero, List.length_cons]
        rw [countChar]
        rw [if_pos rfl]
        have := ih [] cs (by simp at h; omega)
        simp only [List.length_cons, this]
        omega
      · rw [splitGo.eq_3]
        have hsw : startsWithChars (c0 :: []) (c :: cs) = false := by
          simp only [startsWithChars]
          rw [if_neg (fun he => hc he.symm)]
        rw [if_neg (by simp [hsw])]
        rw [ih (c :: acc) cs (by simp at h; omega)]
        rw [countChar, if_neg hc]
        omega

theorem splitGo_headD (c0 : Char) (fuel : Nat) :
    ∀ (acc s : List Char), s.length ≤ fuel →
      (splitGo c0 [] fuel acc s).headD []
        = acc.reverse ++ s.takeWhile (fun c => c != c0) := by
  induction fuel with
  | zero =>
    intro acc s h
    have hs : s = [] := List.eq_nil_of_length_eq_zero (by omega)
    subst hs
    rfl
  | succ m ih =>
    intro acc s h
    cases s with
    | nil => simp [splitGo]
    | cons c cs =>
      by_cases hc : c = c0
      · subst hc
        rw [splitGo.eq_3]
        rw [if_pos (by simp [startsWithChars])]
        simp [List.takeWhile_cons]
      · rw [splitGo.eq_3]
        have hsw : startsWithChars (c0 :: []) (c :: cs) = false := by
          simp only [startsWithChars]
          rw [if_neg (fun he => hc he.symm)]
        rw [if_neg (by simp [hsw])]
        rw [ih (c :: acc) cs (by simp at h; omega)]
        simp [List.takeWhile_cons, hc]

theorem map_mk_headD (l : List (List Char)) :
    (l.map String.mk).headD "" = String.mk (l.headD []) := by
  cases l <;> rfl

theorem partsType_three (p0 p1 p2 : String) (ps : List String) :
    partsType (p0 :: p1 :: p2 :: ps) = "text" := rfl

theorem partsType_single (p0 : String) : partsType [p0] = "text" := rfl

/-- C7: a selector expression with no `@` and no `##` is interpreted
exactly like the same expression with an explicit `@text` suffix — the
omitted extraction type defaults to trimmed text. -/
theorem selectExpr_defaultText (soup : Node) (sel : String)
    (h0 : sel ≠ "") (h1 : occursStr "@" sel = false) (h2 : occursStr "##" sel = false) :
    selectExpr soup sel = selectExpr soup (sel ++ "@text") := by
  have hdata : (sel ++ "@text").data = sel.data ++ '@' :: "text".data := by
    rw [strDataAppend]
  have hne2 : (sel ++ "@text") ≠ "" := by
    intro he
    have hd : (sel ++ "@text").data = ([] : List Char) := by rw [he]
    rw [hdata] at hd
    simp at hd
  have hocc1 : occursChars ['#', '#'] sel.data = false := h2
  have hocc2 : occursChars ['#', '#'] (sel ++ "@text").data = false := by
    rw [hdata]
    refine occursChars_two_append '#' '#' _ _ hocc1 (by decide) ?_
    intro c hc
    have hce := Option.some.inj hc
    rw [← hce]
    decide
  have hsf1 : splitFirstStr "##" sel = none := by
    rw [splitFirstStr_hash, splitFirstGo_none '#' ['#'] sel.data hocc1]
    rfl
  have hsf2 : splitFirstStr "##" (sel ++ "@text") = none := by
    rw [splitFirstStr_hash, splitFirstGo_none '#' ['#'] _ hocc2]
    rfl
  have hat : ∀ c ∈ sel.data, c ≠ '@' := occursChars_single_false '@' sel.data h1
  have hparts1 : splitAllStr "@" sel = [sel] := by
    rw [splitAllStr_at, splitGo_nosep '@' sel.data.length [] sel.data hat]
    simp [strMkData]
  have hparts2 : splitAllStr "@" (sel ++ "@text") = [sel, "text"] := by
    rw [splitAllStr_at]
    have h9 : (sel ++ "@text").data.length = sel.data.length + 5 := by
      rw [hdata]; simp
    rw [h9]
    conv =>
      lhs
      rw [hdata]
    rw [splitGo_append_sep '@' (sel.data.length + 5) [] sel.data "text".data
      (by omega) hat (by decide)]
    simp [strMkData]
  rw [selectExpr_of_none soup sel h0 hsf1,
    selectExpr_of_none soup (sel ++ "@text") hne2 hsf2,
    selectCore_eq, selectCore_eq, hparts1, hparts2]
  rfl

/-- The concrete document for the C7 witness. -/
def textDocW : Node := Node.elem "html" [] [Node.elem "p" [] [Node.text "hi"]]

/-- C7 witness: `p` and `p@text` agree on a concrete document. -/
theorem selectExpr_defaultText_witness :
    (("p" : String) ≠ "" ∧ occursStr "@" "p" = false ∧ occursStr "##" "p" = false) ∧
    selectExpr textDocW "p" = selectExpr textDocW ("p" ++ "@text") :=
  ⟨⟨by decide, by decide, by decide⟩,
    selectExpr_defaultText textDocW "p" (by decide) (by decide) (by decide)⟩

/-- C10: a selector expression containing two or more `@` characters
and no `##` is interpreted exactly like the text before the first `@`
alone: the extraction type silently falls back to `text` and every
segment after the first `@` is discarded (no error is reported).  The
text before the first `@` is assumed non-empty, matching a well-formed
CSS selector. -/
theorem selectExpr_multiAt (soup : Node) (sel : String)
    (hc2 : 2 ≤ countChar '@' sel.data) (hno : occursStr "##" sel = false)
    (hnz : sel.data.takeWhile (fun c => c != '@') ≠ []) :
    selectExpr soup sel
      = selectExpr soup (String.mk (sel.data.takeWhile (fun c => c != '@'))) := by
  have hdq : sel.data ≠ [] := by
    intro hd
    rw [hd] at hc2
    simp [countChar] at hc2
  have h0 : sel ≠ "" := by
    intro he
    exact hdq (by rw [he])
  have hocc1 : occursChars ['#', '#'] sel.data = false := hno
  have hsf1 : splitFirstStr "##" sel = none := by
    rw [splitFirstStr_hash, splitFirstGo_none '#' ['#'] sel.data hocc1]
    rfl
  obtain ⟨tb, htb⟩ : ∃ t, sel.data.takeWhile (fun c => c != '@') ++ t = sel.data :=
    List.takeWhile_prefix (fun c => c != '@')
  have hocc' : occursChars ['#', '#'] (sel.data.takeWhile (fun c => c != '@')) = false := by
    refine occursChars_of_prefix_false _ _ tb ?_
    rw [htb]
    exact hocc1
  have hs' : String.mk (sel.data.takeWhile (fun c => c != '@')) ≠ "" := by
    intro he
    have hd := congrArg String.data he
    rw [data_mk] at hd
    exact hnz (by simpa using hd)
  have hsf2 : splitFirstStr "##" (String.mk (sel.data.takeWhile (fun c => c != '@'))) = none := by
    rw [splitFirstStr_hash, data_mk, splitFirstGo_none '#' ['#'] _ hocc']
    rfl
  have hatw : ∀ c ∈ sel.data.takeWhile (fun c => c != '@'), c ≠ '@' := by
    intro c hcm
    simpa using List.mem_takeWhile_imp hcm
  have hparts2 : splitAllStr "@" (String.mk (sel.data.takeWhile (fun c => c != '@')))
      = [String.mk (sel.data.takeWhile (fun c => c != '@'))] := by
    rw [splitAllStr_at, data_mk, splitGo_nosep '@' _ [] _ hatw]
    simp
  have hlen3 : 3 ≤ (splitAllStr "@" sel).length := by
    rw [splitAllStr_at, List.length_map,
      splitGo_length '@' sel.data.length [] sel.data (le_refl _)]
    omega
  have hhead : (splitAllStr "@" sel).headD ""
      = String.mk (sel.data.takeWhile (fun c => c != '@')) := by
    rw [splitAllStr_at, map_mk_headD,
      splitGo_headD '@' sel.data.length [] sel.data (le_refl _)]
    simp
  have htyp : partsType (splitAllStr "@" sel) = "text" := partsType_of_three_le _ hlen3
  rw [selectExpr_of_none soup sel h0 hsf1,
    selectExpr_of_none soup (String.mk (sel.data.takeWhile (fun c => c != '@'))) hs' hsf2,
    selectCore_eq, selectCore_eq, hhead, htyp, hparts2]
  rfl

/-- The concrete document for the C10 witness. -/
def multiAtDocW : Node := Node.elem "html" [] [Node.elem "div" [] [Node.text "D"]]

/-- C10 witness: `div@text@html` behaves as plain `div` (type falls
back to `text`, the trailing segments are silently discarded). -/
theorem selectExpr_multiAt_witness :
    (2 ≤ countChar '@' ("div@text@html" : String).data ∧
      occursStr "##" "div@text@html" = false ∧
      ("div@text@html" : String).data.takeWhile (fun c => c != '@') ≠ []) ∧
    selectExpr multiAtDocW "div@text@html"
      = selectExpr multiAtDocW
          (String.mk (("div@text@html" : String).data.takeWhile (fun c => c != '@'))) :=
  ⟨⟨by decide, by decide, by decide⟩,
    selectExpr_multiAt multiAtDocW "div@text@html" (by decide) (by decide) (by decide)⟩

/-- C1 (amended): a `BASE##REGEX` expression (first `##` as the
delimiter: `BASE` free of `##` and not ending in `#`) resolves `BASE`
recursively and removes every leftmost non-overlapping match of
`REGEX` from the result in one pass — a global strip, not a single
substitution.  (The stripped result need not be match-free: remnants
adjacent to removed matches can form a new match, see the
counterexample.) -/
theorem selectExpr_hashStrip (soup : Node) (base regex : String)
    (hno : occursStr "##" base = false) (hend : base.data.getLast? ≠ some '#') :
    selectExpr soup (base ++ "##" ++ regex) = stripAll regex (selectExpr soup base) := by
  have hocc1 : occursChars ['#', '#'] base.data = false := hno
  have hdata : (base ++ "##" ++ regex).data = base.data ++ '#' :: '#' :: regex.data := by
    rw [strDataAppend, strDataAppend, List.append_assoc]
    rfl
  have hne : (base ++ "##" ++ regex) ≠ "" := by
    intro he
    have hd := congrArg String.data he
    rw [hdata] at hd
    simp at hd
  have hsf : splitFirstStr "##" (base ++ "##" ++ regex)
      = some (base, regex) := by
    rw [splitFirstStr_hash, hdata, splitFirstGo_hashes base.data regex.data hocc1 hend]
    simp [strMkData]
  have hbase : selectExpr soup base = selectBase soup base := by
    by_cases hb : base = ""
    · subst hb
      rfl
    · have hsfb : splitFirstStr "##" base = none := by
        rw [splitFirstStr_hash, splitFirstGo_none '#' ['#'] base.data hocc1]
        rfl
      rw [selectExpr_of_none soup base hb hsfb]
      unfold selectBase
      rw [if_neg hb]
  rw [selectExpr_of_some soup (base ++ "##" ++ regex) base regex hne hsf, hbase]

/-- The concrete document for the C1 counterexample: `select(node, "a")`
is `"aabb"`. -/
def hashDocC : Node := Node.elem "html" [] [Node.elem "a" [] [Node.text "aabb"]]

/-- C1 counterexample: for the expression `a##ab` the stripped result
is `"ab"`, which still contains a substring matching the regex `ab` —
a substring that also existed in `select(node, "a") = "aabb"`.  The
claim that the result has no such match is therefore false. -/
theorem selectExpr_hashStrip_counterexample :
    selectExpr hashDocC "a" = "aabb" ∧
    selectExpr hashDocC ("a" ++ "##" ++ "ab") = "ab" ∧
    occursStr "ab" (selectExpr hashDocC ("a" ++ "##" ++ "ab")) = true ∧
    occursStr "ab" (selectExpr hashDocC "a") = true :=
  ⟨by decide, by decide, by decide, by decide⟩

/-- The concrete document for the C1 witness: the base value `xyzxy`
holds two occurrences of the regex `xy`; both are removed. -/
def hashDocW : Node := Node.elem "html" [] [Node.elem "b" [] [Node.text "xyzxy"]]

/-- C1 witness: the amended claim at `b##xy`, demonstrating the global
strip (both occurrences of `xy` removed, leaving `z`). -/
theorem selectExpr_hashStrip_witness :
    (occursStr "##" "b" = false ∧ ("b" : String).data.getLast? ≠ some '#') ∧
    (selectExpr hashDocW ("b" ++ "##" ++ "xy") = stripAll "xy" (selectExpr hashDocW "b") ∧
      selectExpr hashDocW ("b" ++ "##" ++ "xy") = "z") :=
  ⟨⟨by decide, by decide⟩,
    ⟨selectExpr_hashStrip hashDocW "b" "xy" (by decide) (by decide), by decide⟩⟩

theorem find?_eq_filter_head {α : Type} (p : α → Bool) (l : List α) :
    l.find? p = (l.filter p).head? := by
  induction l with
  | nil => rfl
  | cons a l ih =>
    by_cases hp : p a = true
    · rw [List.find?_cons_of_pos _ hp, List.filter_cons_of_pos hp]
      rfl
    · rw [List.find?_cons_of_neg _ (by simpa using hp),
        List.filter_cons_of_neg (by simpa using hp)]
      exact ih

/-- C5 (amended): `parse_toc` selects the first `ul.chapter` container
whose *nearest preceding sibling `div` of class `intro`* has stripped
text `"正文"` — the marker need not be the immediately preceding
sibling, and a container whose immediately preceding sibling is the
marker but whose nearest preceding `div.intro` is a different node is
not treated specially.  When no container qualifies, the first
`ul.chapter` container found is used; with no containers the result is
empty.  In the two-block scenario where only the second block is
preceded by `<div class="intro">正文</div>`, the second block's items
are returned (see the witness). -/
theorem parseToc_marker (site : String) (fetch : String → String) (parse : String → Node)
    (rt : TocRule) (tocUrl : String) (hf : fetch tocUrl ≠ "") :
    parseToc site fetch parse rt tocUrl = specTocResult site rt (parse (fetch tocUrl)) := by
  simp only [parseToc, specTocResult, specTocChoice, hf, if_false]
  rw [find?_eq_filter_head]
  cases hfind : ((selectLocated (parse (fetch tocUrl)) "ul.chapter").filter tocMarker).head? with
  | some loc => simp [hfind]
  | none =>
    simp only [hfind, Option.none_or]
    cases selectLocated (parse (fetch tocUrl)) "ul.chapter" with
    | nil => rfl
    | cons first rest => rfl

/-- One-chapter `ul.chapter` block with item `A1`, used by C5. -/
def tocUlA : Node := Node.elem "ul" [("class", "chapter")]
  [Node.elem "li" [] [Node.elem "a" [("href", "/a1")] [Node.text "A1"]]]

/-- One-chapter `ul.chapter` block with item `B1`, used by C5. -/
def tocUlB : Node := Node.elem "ul" [("class", "chapter")]
  [Node.elem "li" [] [Node.elem "a" [("href", "/b1")] [Node.text "B1"]]]

/-- The `<div class="intro">正文</div>` marker node, used by C5. -/
def tocDivMark : Node := Node.elem "div" [("class", "intro")] [Node.text "正文"]

/-- C5 counterexample document: the marker `div.intro` precedes the
second block but with an unrelated `<p>` sibling in between, so the
marker is *not* the immediately preceding sibling of any container. -/
def tocDocC : Node := Node.elem "body" []
  [tocUlA, tocDivMark, Node.elem "p" [] [Node.text "x"], tocUlB]

/-- C5 counterexample: on `tocDocC` the code still selects the second
block (its nearest preceding sibling `div.intro` is the marker), while
the claim as stated — marker must be the *immediately* preceding
sibling, else fall back to the first container — predicts the first
block's items.  The two results differ. -/
theorem parseToc_marker_counterexample :
    parseToc "http://s.com" (fun _ => "page") (fun _ => tocDocC) ⟨none, none⟩ "u"
      = [("B1", "http://s.com/b1")] ∧
    specTocImmediateResult "http://s.com" ⟨none, none⟩ tocDocC
      = [("A1", "http://s.com/a1")] ∧
    parseToc "http://s.com" (fun _ => "page") (fun _ => tocDocC) ⟨none, none⟩ "u"
      ≠ specTocImmediateResult "http://s.com" ⟨none, none⟩ tocDocC :=
  ⟨by decide, by decide, by decide⟩

/-- The spec's two-block scenario document: only the second block is
directly preceded by the marker. -/
def tocDocW : Node := Node.elem "body" [] [tocUlA, tocDivMark, tocUlB]

/-- C5 witness: the amended theorem at the spec's two-block scenario;
the second block's items are returned. -/
theorem parseToc_marker_witness :
    ((fun _ : String => "page") "u" ≠ "") ∧
    (parseToc "http://s.com" (fun _ => "page") (fun _ => tocDocW) ⟨none, none⟩ "u"
        = specTocResult "http://s.com" ⟨none, none⟩ tocDocW ∧
      parseToc "http://s.com" (fun _ => "page") (fun _ => tocDocW) ⟨none, none⟩ "u"
        = [("B1", "http://s.com/b1")]) :=
  ⟨by decide,
    parseToc_marker "http://s.com" (fun _ => "page") (fun _ => tocDocW) ⟨none, none⟩ "u"
      (by decide),
    by decide⟩

end Legado
